import Mathlib

/-!
Verification development for the TED RAG assistant repository.

The repository has three source files:
* src/scripts/index-ted.mjs — ingestion: chunking, embedding with retry,
  Pinecone upsert with retry, checkpointed main loop (namespace IndexTed);
* src/app/api/prompt/route.ts — the query pipeline (namespace PromptRoute);
* src/app/api/stats/route.ts — the stats endpoint (namespace StatsRoute).

Each JavaScript/TypeScript function is embedded as an executable Lean
definition.  Remote HTTP calls are modelled by explicit outcome functions
(attempt number to outcome) and the handlers record a trace of the remote
calls they make.  Texts are modelled as lists of characters; the numeric
similarity scores (floats never inspected by any control flow) are
modelled as integers.  The file first gives all definitions, then the
theorems.
-/

namespace TedRag

namespace IndexTed

/-- Window size of the ingestion chunker (constant CHUNK_SIZE in index-ted.mjs). -/
def CHUNK_SIZE : Nat := 1000

/-- Character overlap of the ingestion chunker (constant CHUNK_OVERLAP in index-ted.mjs). -/
def CHUNK_OVERLAP : Nat := 200

/-- Fuel-indexed model of the while-loop of chunkText, generalised over the
window w and overlap o:
while (start < text.length) push text.slice(start, start + w); start += w - o.
One unit of fuel is consumed per loop iteration; none means the loop was
still running when the fuel ran out.  The step w - o is natural-number
subtraction: for o ≥ w the JavaScript loop never advances past the text
(for o = w the start index is literally unchanged, as here), so the
truncation is faithful for the termination question. -/
def chunkFrom (w o : Nat) (text : List Char) : Nat → Nat → Option (List (List Char))
  | start, 0 => if start < text.length then none else some []
  | start, fuel + 1 =>
    if start < text.length then
      (chunkFrom w o text (start + (w - o)) fuel).map
        (fun rest => (text.drop start).take w :: rest)
    else some []

/-- The chunkText function of index-ted.mjs: the loop with the source's fixed
window 1000 and overlap 200.  A fuel of text.length always suffices
(each iteration advances start by 800 ≥ 1), as proved in chunkFrom_eq. -/
def chunkText (text : List Char) : List (List Char) :=
  (chunkFrom CHUNK_SIZE CHUNK_OVERLAP text 0 text.length).getD []

/-- Number of loop iterations of chunkText on a text of length len:
ceil(len / (w - o)) computed as natural-number division. -/
def numChunks (w o len : Nat) : Nat := (len + (w - o) - 1) / (w - o)

/-- Closed form of the chunk list produced from offset s onward. -/
def chunksSpec (w o : Nat) (text : List Char) (s : Nat) : List (List Char) :=
  (List.range (numChunks w o (text.length - s))).map
    (fun i => (text.drop (s + i * (w - o))).take w)

/-- Outcome of one attempt of the remote embeddings fetch inside
getEmbedding of index-ted.mjs: a 2xx response whose JSON yields
data.data[0].embedding, a non-2xx status (the code then throws), a network
error thrown by fetch, or a malformed JSON body (the field access throws). -/
inductive EmbedOutcome where
  | ok (embedding : List Int)
  | httpError (status : Nat)
  | netError (msg : String)
  | malformed
deriving DecidableEq

/-- True for the three outcomes that land in the catch block of getEmbedding. -/
def isEmbedFail : EmbedOutcome → Bool
  | EmbedOutcome.ok _ => false
  | EmbedOutcome.httpError _ => true
  | EmbedOutcome.netError _ => true
  | EmbedOutcome.malformed => true

/-- What a call of getEmbedding produces: the returned embedding, or the
message of the error it finally throws. -/
inductive EmbedResult where
  | ok (embedding : List Int)
  | thrown (msg : String)
deriving DecidableEq

/-- Observable behaviour of one getEmbedding call: its result, the number of
fetch attempts made, and the sleeps (in ms) between attempts, in order. -/
structure EmbedRun where
  result : EmbedResult
  calls : Nat
  sleeps : List Nat
deriving DecidableEq

/-- The retry loop of getEmbedding: for attempt = 1..retries, try the fetch;
on any failure log, sleep 1000 * attempt ms and continue; after the loop
throw Error("Failed to embed after all retries.").  The remote service is
modelled by imp : attempt number → outcome. -/
def getEmbeddingFrom (imp : Nat → EmbedOutcome) : Nat → Nat → EmbedRun
  | _attempt, 0 => ⟨EmbedResult.thrown "Failed to embed after all retries.", 0, []⟩
  | attempt, fuel + 1 =>
    match imp attempt with
    | EmbedOutcome.ok v => ⟨EmbedResult.ok v, 1, []⟩
    | EmbedOutcome.httpError _ =>
      let r := getEmbeddingFrom imp (attempt + 1) fuel
      ⟨r.result, r.calls + 1, 1000 * attempt :: r.sleeps⟩
    | EmbedOutcome.netError _ =>
      let r := getEmbeddingFrom imp (attempt + 1) fuel
      ⟨r.result, r.calls + 1, 1000 * attempt :: r.sleeps⟩
    | EmbedOutcome.malformed =>
      let r := getEmbeddingFrom imp (attempt + 1) fuel
      ⟨r.result, r.calls + 1, 1000 * attempt :: r.sleeps⟩

/-- getEmbedding(text, retries): attempts start at 1.  The source's default
for retries is 5 and every caller uses it. -/
def getEmbedding (imp : Nat → EmbedOutcome) (retries : Nat) : EmbedRun :=
  getEmbeddingFrom imp 1 retries

/-- Outcome of one index.upsert call inside safeUpsert: either the promise
rejects (throws) with a message, or it resolves with a response that is
either falsy/empty or a real response object. -/
inductive UpsertOutcome where
  | throws (msg : String)
  | returns (isEmpty : Bool)
deriving DecidableEq

/-- True for the outcome that lands in the catch block of safeUpsert. -/
def isThrown : UpsertOutcome → Bool
  | UpsertOutcome.throws _ => true
  | UpsertOutcome.returns _ => false

/-- What a call of safeUpsert produces: normal return, or the message of the
error it finally throws. -/
inductive UpsertResult where
  | ok
  | thrown (msg : String)
deriving DecidableEq

/-- Observable behaviour of one safeUpsert call: its result, the number of
upsert attempts made, the sleeps (in ms) between attempts, and how many
empty-response warnings were logged. -/
structure UpsertRun where
  result : UpsertResult
  calls : Nat
  sleeps : List Nat
  warnings : Nat
deriving DecidableEq

/-- The retry loop of safeUpsert: for attempt = 1..retries, await the upsert;
if it resolves, warn when the response is falsy and return; if it throws,
log, sleep 2000 * attempt ms and continue; after the loop throw
Error("Failed to upsert after multiple retries."). -/
def safeUpsertFrom (imp : Nat → UpsertOutcome) : Nat → Nat → UpsertRun
  | _attempt, 0 => ⟨UpsertResult.thrown "Failed to upsert after multiple retries.", 0, [], 0⟩
  | attempt, fuel + 1 =>
    match imp attempt with
    | UpsertOutcome.returns isEmpty =>
      ⟨UpsertResult.ok, 1, [], if isEmpty then 1 else 0⟩
    | UpsertOutcome.throws _ =>
      let r := safeUpsertFrom imp (attempt + 1) fuel
      ⟨r.result, r.calls + 1, 2000 * attempt :: r.sleeps, r.warnings⟩

/-- safeUpsert(vectors, retries): attempts start at 1.  The source's default
for retries is 5 and every caller uses it. -/
def safeUpsert (imp : Nat → UpsertOutcome) (retries : Nat) : UpsertRun :=
  safeUpsertFrom imp 1 retries

/-- A remote embedding endpoint that always fails with HTTP 500; used to
instantiate universally quantified theorems at a concrete input. -/
def alwaysFailEmbed : Nat → EmbedOutcome := fun _ => EmbedOutcome.httpError 500

/-- A remote embedding endpoint that fails with varying causes on attempts
1 to 4 and succeeds on attempt 5. -/
def failThenOkEmbed : Nat → EmbedOutcome := fun a =>
  if a = 5 then EmbedOutcome.ok [7]
  else if a = 1 then EmbedOutcome.httpError 500
  else if a = 2 then EmbedOutcome.netError "connection reset"
  else EmbedOutcome.malformed

/-- An upsert endpoint whose promise always rejects. -/
def alwaysThrowUpsert : Nat → UpsertOutcome := fun a =>
  UpsertOutcome.throws ("boom " ++ toString a)

/-- An upsert endpoint that resolves at once with a falsy response. -/
def emptyOkUpsert : Nat → UpsertOutcome := fun _ => UpsertOutcome.returns true

/-- An upsert endpoint that rejects on the first two attempts, then resolves
with a real response. -/
def throwTwiceUpsert : Nat → UpsertOutcome := fun a =>
  if a ≤ 2 then UpsertOutcome.throws "409" else UpsertOutcome.returns false

/-- One CSV row as consumed by the run() loop of index-ted.mjs.  Only the
fields the control flow inspects are kept: talk_id (used for vector ids)
and transcript.  A missing transcript field and an empty one are both
falsy in the source's check, so both are modelled by the empty string. -/
structure Record where
  talk_id : String
  transcript : String
deriving DecidableEq

/-- Observable events of one ingestion run, in order: reaching a row of the
loop (visit), an embedding call for a chunk, an upsert call with its
vector id, a progress console log, and a write of the progress file. -/
inductive Ev where
  | visit (row : Nat)
  | embed (text : String)
  | upsert (id : String)
  | progressLog (row : Nat) (vectors : Nat)
  | saveProgress (row : Nat)
deriving DecidableEq

/-- The body of the for-loop of run() for one record, given the current row
index and vector counter; returns the emitted events (after the visit)
and the updated vector counter.  Remote calls are modelled as succeeding,
which is the path on which the checkpoint logic runs.  An empty
transcript means currentRow++ and continue, skipping the every-5-rows
progress block. -/
def processRecord (r : Record) (row vc : Nat) : List Ev × Nat :=
  if r.transcript = "" then ([], vc)
  else
    let chunks := chunkText r.transcript.data
    let chunkEvs := chunks.enum.flatMap
      (fun p => [Ev.embed (String.mk p.2), Ev.upsert (r.talk_id ++ "-" ++ toString p.1)])
    let vcNew := vc + chunks.length
    (chunkEvs ++ (if row % 5 = 0 then [Ev.progressLog row vcNew, Ev.saveProgress row] else []),
      vcNew)

/-- The loop of run() over the remaining records, starting at the given row
index with the given vector counter; after the loop the progress file is
written once more with the final currentRow. -/
def runLoop : List Record → Nat → Nat → List Ev
  | [], row, _vc => [Ev.saveProgress row]
  | r :: rs, row, vc =>
    Ev.visit row ::
      ((processRecord r row vc).1 ++ runLoop rs (row + 1) (processRecord r row vc).2)

/-- Which row run() starts from: progress.log absent or unparseable means 1,
a saved checkpoint c means c + 1. -/
def startFrom (progress : Option Nat) : Nat :=
  match progress with
  | none => 1
  | some c => c + 1

/-- One ingestion run of index-ted.mjs: read the checkpoint, drop the rows at
or before it (talks.slice(startFrom)) and loop over the rest. -/
def run (progress : Option Nat) (talks : List Record) : List Ev :=
  runLoop (talks.drop (startFrom progress)) (startFrom progress) 0

/-- Projection selecting the visit events. -/
def visitEv : Ev → Option Nat
  | Ev.visit row => some row
  | _ => none

/-- The row indices the loop iterated over, in order. -/
def visitedRows (evs : List Ev) : List Nat :=
  evs.filterMap visitEv

end IndexTed

namespace PromptRoute

/-- The question field of the request body of POST /api/prompt: absent, a
string, or a JSON value of another type (with its JavaScript truthiness). -/
inductive QVal where
  | str (s : String)
  | nonString (truthy : Bool)
deriving DecidableEq

/-- Metadata bundle of one Pinecone match; every field may be absent. -/
structure PMeta where
  talk_id : Option String
  title : Option String
  speaker : Option String
  topics : Option String
  event : Option String
  description : Option String
  text : Option String
deriving DecidableEq

/-- The all-absent metadata object, the fallback of m.metadata or {}. -/
def emptyMeta : PMeta := ⟨none, none, none, none, none, none, none⟩

/-- One match returned by the Pinecone query: optional metadata bundle and
optional similarity score (a float in the source, never inspected by
control flow; modelled as an integer). -/
structure PMatch where
  metadata : Option PMeta
  score : Option Int
deriving DecidableEq

/-- One entry of the context array the route returns (step 3 of the source). -/
structure CtxEntry where
  talk_id : String
  title : String
  speaker : String
  topics : String
  event : String
  description : String
  chunk : String
  score : Int
deriving DecidableEq

/-- Outcome of an awaited remote call: resolved value or thrown error. -/
inductive FetchResult (α : Type) where
  | ok (val : α)
  | thrown (msg : String)
deriving DecidableEq

/-- The remote world one POST /api/prompt request sees: the outcome of the
embeddings fetch for the question (the raw parsed vector, before the
route's dimension check), of the Pinecone query (matches may be absent),
and of the chat completion call (the trimmed answer callTedModel returns). -/
structure PromptEnv where
  embedRaw : FetchResult (List Int)
  queryResp : FetchResult (Option (List PMatch))
  chatResp : FetchResult String
deriving DecidableEq

/-- What the route hands back: a 400 with an error message, a 500 (the catch
block), or a 200 with the model answer, the context array and the user
prompt that was sent. -/
inductive PromptOut where
  | badRequest (msg : String)
  | serverError
  | success (response : String) (context : List CtxEntry) (userPrompt : String)
deriving DecidableEq

/-- The remote calls the route can make, in the order it makes them. -/
inductive RCall where
  | embed
  | query
  | chat
deriving DecidableEq

/-- HTTP status of a route outcome. -/
def statusOf : PromptOut → Nat
  | PromptOut.badRequest _ => 400
  | PromptOut.serverError => 500
  | PromptOut.success _ _ _ => 200

/-- JavaScript String.prototype.trim on the model's strings: strip leading
and trailing whitespace.  (Lean's own String.trim is not kernel-reducible,
so the JS behaviour is modelled directly on the character list.) -/
def jsTrim (s : String) : String :=
  String.mk (((s.data.dropWhile Char.isWhitespace).reverse.dropWhile
    Char.isWhitespace).reverse)

/-- Context entry built from one match (step 3 of the source): each metadata
field defaulted to "" and the score defaulted to 0. -/
def ctxOf (m : PMatch) : CtxEntry :=
  let meta := m.metadata.getD emptyMeta
  ⟨meta.talk_id.getD "", meta.title.getD "", meta.speaker.getD "",
    meta.topics.getD "", meta.event.getD "", meta.description.getD "",
    meta.text.getD "", m.score.getD 0⟩

/-- The numbered block for one context entry inside the user prompt. -/
def ctxBlock (idx : Nat) (c : CtxEntry) : String :=
  "#" ++ toString (idx + 1) ++
  "\nTalk ID: " ++ c.talk_id ++
  "\nTitle: " ++ c.title ++
  "\nSpeaker: " ++ c.speaker ++
  "\nTopics: " ++ c.topics ++
  "\nEvent: " ++ c.event ++
  "\nDescription: " ++ c.description ++
  "\nScore: " ++ toString c.score ++
  "\nChunk: " ++ c.chunk

/-- The user prompt of step 4 of the source, already trimmed. -/
def buildUserPrompt (q : String) (ctx : List CtxEntry) : String :=
  "Question: " ++ q ++ "\n\nContext:\n" ++
  String.intercalate "\n\n" (ctx.enum.map (fun p => ctxBlock p.1 p.2)) ++
  "\n\nRemember: Answer strictly from the context above. If you cannot answer, say: \"I don't know based on the provided TED data.\""

/-- The POST handler of src/app/api/prompt/route.ts as a function of the
request's question field and of the remote world, returning the outcome
and the trace of remote calls made.  Validation happens before any
remote call; a falsy question (absent, empty string, falsy non-string)
or a non-string question yields the first 400; a question that trims to
empty yields the second 400; any thrown remote error or a wrong embedding
dimension lands in the catch block (500). -/
def POST (env : PromptEnv) (question : Option QVal) : PromptOut × List RCall :=
  match question with
  | none => (PromptOut.badRequest "Missing 'question' field in JSON body", [])
  | some (QVal.nonString _) =>
    (PromptOut.badRequest "Missing 'question' field in JSON body", [])
  | some (QVal.str s) =>
    if s = "" then (PromptOut.badRequest "Missing 'question' field in JSON body", [])
    else
      let q := jsTrim s
      if q = "" then (PromptOut.badRequest "Question cannot be empty", [])
      else
        match env.embedRaw with
        | FetchResult.thrown _ => (PromptOut.serverError, [RCall.embed])
        | FetchResult.ok v =>
          if v.length = 1536 then
            match env.queryResp with
            | FetchResult.thrown _ => (PromptOut.serverError, [RCall.embed, RCall.query])
            | FetchResult.ok mopt =>
              let ms := mopt.getD []
              let context := ms.map ctxOf
              let userPrompt := buildUserPrompt q context
              match env.chatResp with
              | FetchResult.thrown _ =>
                (PromptOut.serverError, [RCall.embed, RCall.query, RCall.chat])
              | FetchResult.ok ans =>
                (PromptOut.success ans context userPrompt, [RCall.embed, RCall.query, RCall.chat])
          else (PromptOut.serverError, [RCall.embed])

/-- An arbitrary remote world, used to instantiate universally quantified
theorems at a concrete input. -/
def dummyEnv : PromptEnv :=
  ⟨FetchResult.thrown "down", FetchResult.thrown "down", FetchResult.thrown "down"⟩

/-- A remote world in which embedding and chat succeed and the Pinecone query
returns zero matches. -/
def envZero : PromptEnv :=
  ⟨FetchResult.ok (List.replicate 1536 0), FetchResult.ok (some []),
    FetchResult.ok "Some model answer."⟩

end PromptRoute

namespace StatsRoute

/-- Advertised chunk size of src/app/api/stats/route.ts (constant CHUNK_SIZE
there, distinct from the ingestion chunker's). -/
def CHUNK_SIZE : Nat := 1024

/-- Advertised top_k of src/app/api/stats/route.ts. -/
def TOP_K : Nat := 15

/-- The JSON body GET /api/stats returns.  The source's overlap_ratio 0.2 is
the rational 1/5. -/
structure StatsResponse where
  chunk_size : Nat
  overlapRatio : ℚ
  top_k : Nat
deriving DecidableEq

/-- The GET handler of src/app/api/stats/route.ts: it ignores its request and
returns the three constants (overlap_ratio 0.2 = 1/5). -/
def GET (_req : Unit) : StatsResponse :=
  ⟨CHUNK_SIZE, 1/5, TOP_K⟩

end StatsRoute

namespace IndexTed

theorem numChunks_of_eq_zero (w o : Nat) (hst : 0 < w - o) (d : Nat) (hd : d = 0) :
    numChunks w o d = 0 := by
  subst hd
  unfold numChunks
  exact Nat.div_eq_of_lt (by omega)

theorem numChunks_succ (w o d : Nat) (hst : 0 < w - o) (hd : 0 < d) :
    numChunks w o d = numChunks w o (d - (w - o)) + 1 := by
  set st := w - o with hst_def
  unfold numChunks
  rw [show d + st - 1 = (d - 1) + st from by omega, Nat.add_div_right _ hst]
  rcases le_or_lt d st with hle | hlt
  · rw [show d - st = 0 from by omega]
    rw [Nat.div_eq_of_lt (by omega), Nat.div_eq_of_lt (by omega)]
  · rw [show d - st + st - 1 = (d - st - 1) + st from by omega,
      Nat.add_div_right _ hst,
      show d - 1 = (d - st - 1) + st from by omega,
      Nat.add_div_right _ hst]

theorem chunksSpec_nil (w o : Nat) (text : List Char) (s : Nat)
    (hst : 0 < w - o) (h : text.length ≤ s) : chunksSpec w o text s = [] := by
  unfold chunksSpec
  rw [numChunks_of_eq_zero w o hst _ (by omega)]
  rfl

theorem chunksSpec_cons (w o : Nat) (text : List Char) (s : Nat)
    (hst : 0 < w - o) (h : s < text.length) :
    chunksSpec w o text s =
      (text.drop s).take w :: chunksSpec w o text (s + (w - o)) := by
  unfold chunksSpec
  rw [show text.length - (s + (w - o)) = (text.length - s) - (w - o) from by omega]
  rw [numChunks_succ w o (text.length - s) hst (by omega)]
  rw [List.range_succ_eq_map]
  simp only [List.map_cons, List.map_map, Function.comp_def]
  congr 1
  · simp
  · apply List.map_congr_left
    intro i _
    have harith : s + Nat.succ i * (w - o) = s + (w - o) + i * (w - o) := by
      rw [Nat.succ_mul]
      omega
    rw [harith]

theorem chunkFrom_eq (w o : Nat) (text : List Char) (hst : 0 < w - o) :
    ∀ (fuel start : Nat), text.length - start ≤ fuel →
      chunkFrom w o text start fuel = some (chunksSpec w o text start) := by
  intro fuel
  induction fuel with
  | zero =>
    intro start hh
    have hs : ¬ start < text.length := by omega
    simp only [chunkFrom, hs, if_false]
    rw [chunksSpec_nil w o text start hst (by omega)]
  | succ fuel ih =>
    intro start hh
    by_cases hs : start < text.length
    · simp only [chunkFrom, hs, if_true]
      rw [ih (start + (w - o)) (by omega)]
      rw [chunksSpec_cons w o text start hst hs]
      rfl
    · simp only [chunkFrom, hs, if_false]
      rw [chunksSpec_nil w o text start hst (by omega)]

theorem chunkText_eq (text : List Char) :
    chunkText text = chunksSpec 1000 200 text 0 := by
  unfold chunkText CHUNK_SIZE CHUNK_OVERLAP
  rw [chunkFrom_eq 1000 200 text (by omega) text.length 0 (by omega)]
  rfl

theorem chunkText_length (text : List Char) :
    (chunkText text).length = (text.length + 799) / 800 := by
  rw [chunkText_eq]
  unfold chunksSpec numChunks
  rw [List.length_map, List.length_range]
  omega

theorem chunkFrom_none_of_le (w o : Nat) (text : List Char)
    (hwo : w ≤ o) (ht : text ≠ []) :
    ∀ fuel, chunkFrom w o text 0 fuel = none := by
  have hpos : 0 < text.length := List.length_pos.mpr ht
  have hz : w - o = 0 := by omega
  intro fuel
  induction fuel with
  | zero => simp [chunkFrom, hpos]
  | succ fuel ih => simp [chunkFrom, hpos, hz, ih]

/-- Claim C2, counterexample: the text of 801 identical characters has length
at most the window 1000, yet chunkText returns 2 chunks, not the single
whole-text chunk the claim asserts, and not the ceil((L-200)/800) = 1
chunks of the claimed formula. -/
theorem chunk_count_formula_cex :
    (List.replicate 801 'a').length ≤ 1000 ∧
    (801 - 200 + (800 - 1)) / 800 = 1 ∧
    (chunkText (List.replicate 801 'a')).length = 2 ∧
    chunkText (List.replicate 801 'a') ≠ [List.replicate 801 'a'] := by
  have hlen : (chunkText (List.replicate 801 'a')).length = 2 := by
    rw [chunkText_length, List.length_replicate]
  refine ⟨by simp only [List.length_replicate]; omega, by norm_num, hlen, ?_⟩
  intro h
  rw [h] at hlen
  simp only [List.length_cons, List.length_nil] at hlen
  omega

/-- Claim C2, amended: for every non-empty text of length L, chunkText with
window 1000 and overlap 200 produces exactly ceil(L / 800) chunks (the
loop steps by window minus overlap and runs while start < L), and every
text of length at most 800 — not 1000 — yields exactly one chunk equal to
the whole input. -/
theorem chunk_count_corrected (t1 t2 : List Char)
    (_h1 : t1 ≠ []) (h2 : t2 ≠ []) (h2len : t2.length ≤ 800) :
    (chunkText t1).length = (t1.length + 799) / 800 ∧ chunkText t2 = [t2] := by
  refine ⟨chunkText_length t1, ?_⟩
  have hp : 0 < t2.length := List.length_pos.mpr h2
  rw [chunkText_eq]
  unfold chunksSpec numChunks
  rw [show (t2.length - 0 + (1000 - 200) - 1) / (1000 - 200) = 1 from by omega]
  rw [show List.range 1 = [0] from by decide]
  simp only [List.map_cons, List.map_nil, Nat.zero_mul, Nat.add_zero, List.drop_zero]
  rw [List.take_of_length_le (by omega)]

/-- Witness for chunk_count_corrected at concrete one-character texts. -/
theorem chunk_count_corrected_witness :
    ((['a'] : List Char) ≠ [] ∧ (['b'] : List Char) ≠ [] ∧
      (['b'] : List Char).length ≤ 800) ∧
    ((chunkText ['a']).length = ((['a'] : List Char).length + 799) / 800 ∧
      chunkText ['b'] = [['b']]) :=
  ⟨⟨by decide, by decide, by decide⟩,
    chunk_count_corrected ['a'] ['b'] (by decide) (by decide) (by decide)⟩

/-- Claim C4, counterexample: called with overlap equal to window (1, 1) on a
non-empty text, the chunking loop is not rejected and does not fail fast:
it is still running after 1000 and after 1000000 iterations, while the
source's valid configuration (1000, 200) finishes on the same text within
a single iteration. -/
theorem overlap_ge_window_not_rejected_cex :
    chunkFrom 1 1 ['a'] 0 1000 = none ∧
    chunkFrom 1 1 ['a'] 0 1000000 = none ∧
    (chunkFrom 1000 200 ['a'] 0 1).isSome = true :=
  ⟨chunkFrom_none_of_le 1 1 ['a'] (by decide) (by decide) 1000,
    chunkFrom_none_of_le 1 1 ['a'] (by decide) (by decide) 1000000,
    by decide⟩

/-- Claim C4, amended: the code contains no defensive rejection of
configurations with overlap ≥ window.  With overlap < window the loop
terminates on every input (within text.length iterations), and with
overlap ≥ window it loops forever on every non-empty text: for every fuel
bound the loop is still unfinished. -/
theorem chunk_termination_corrected (w1 o1 w2 o2 : Nat) (t1 t2 : List Char)
    (fuel : Nat) (h1 : o1 < w1) (h2 : w2 ≤ o2) (ht2 : t2 ≠ []) :
    (chunkFrom w1 o1 t1 0 t1.length).isSome = true ∧
    chunkFrom w2 o2 t2 0 fuel = none := by
  constructor
  · rw [chunkFrom_eq w1 o1 t1 (by omega) t1.length 0 (by omega)]
    rfl
  · exact chunkFrom_none_of_le w2 o2 t2 h2 ht2 fuel

theorem flatten_drop200 (text : List Char) :
    ∀ (d s : Nat), text.length - s ≤ d →
      ((chunksSpec 1000 200 text s).map (fun c => c.drop 200)).flatten =
        text.drop (s + 200) := by
  intro d
  induction d with
  | zero =>
    intro s hd
    rw [chunksSpec_nil 1000 200 text s (by norm_num) (by omega)]
    simp only [List.map_nil, List.flatten_nil]
    exact (List.drop_of_length_le (by omega)).symm
  | succ d ih =>
    intro s hd
    by_cases hs : s < text.length
    · rw [chunksSpec_cons 1000 200 text s (by norm_num) hs]
      simp only [List.map_cons, List.flatten_cons]
      rw [ih (s + (1000 - 200)) (by omega)]
      have hdp : ((text.drop s).take 1000).drop 200 =
          (text.drop (s + 200)).take 800 := by
        rw [List.drop_take, List.drop_drop]
      rw [hdp]
      rw [show s + (1000 - 200) + 200 = s + 200 + 800 from by omega]
      rw [show text.drop (s + 200 + 800) = (text.drop (s + 200)).drop 800 from
        (List.drop_drop 800 (s + 200) text).symm]
      exact List.take_append_drop 800 (text.drop (s + 200))
    · rw [chunksSpec_nil 1000 200 text s (by norm_num) (by omega)]
      simp only [List.map_nil, List.flatten_nil]
      exact (List.drop_of_length_le (by omega)).symm

theorem chunkText_getElem (text : List Char) (i : Nat) :
    (chunkText text)[i]? =
      if 800 * i < text.length then some ((text.drop (i * 800)).take 1000)
      else none := by
  rw [chunkText_eq]
  unfold chunksSpec
  rw [List.getElem?_map]
  by_cases hi : i < numChunks 1000 200 (text.length - 0)
  · rw [List.getElem?_range hi]
    have hcond : 800 * i < text.length := by
      unfold numChunks at hi
      omega
    rw [if_pos hcond]
    simp only [Option.map_some']
    rw [show 0 + i * 800 = i * 800 from by omega,
      show i * (1000 - 200) = i * 800 from by norm_num]
  · have hnone : (List.range (numChunks 1000 200 (text.length - 0)))[i]? = none := by
      apply List.getElem?_eq_none
      rw [List.length_range]
      omega
    rw [hnone]
    have hcond : ¬ 800 * i < text.length := by
      unfold numChunks at hi
      omega
    rw [if_neg hcond]
    rfl

/-- Claim C8 (confirmed): for every text longer than the window 1000, the
first chunk is the first 1000 characters, and concatenating it with the
non-overlapping portions (all but the first 200 characters) of the later
chunks reconstructs the text exactly; each pair of consecutive chunks a, b
shares a block of exactly min 200 (length of b) characters (the length-200
suffix of a equals the length-200 prefix of b, the shared block only being
shorter when b is the final chunk, shorter than the overlap 200 itself);
every chunk followed by at least one further chunk has length at least 200. -/
theorem chunk_overlap_reconstruction (text : List Char) (hlen : 1000 < text.length) :
    (∃ rest, chunkText text = text.take 1000 :: rest ∧
      text.take 1000 ++ (rest.map (fun c => c.drop 200)).flatten = text) ∧
    (∀ i a b, (chunkText text)[i]? = some a → (chunkText text)[i + 1]? = some b →
      (a.drop (a.length - min 200 b.length) = b.take (min 200 b.length) ∧
        ((chunkText text)[i + 2]? ≠ none → 200 ≤ b.length))) := by
  constructor
  · refine ⟨chunksSpec 1000 200 text (0 + (1000 - 200)), ?_, ?_⟩
    · rw [chunkText_eq, chunksSpec_cons 1000 200 text 0 (by norm_num) (by omega)]
      rw [List.drop_zero]
    · rw [flatten_drop200 text (text.length - (0 + (1000 - 200))) (0 + (1000 - 200))
        (by omega)]
      rw [show 0 + (1000 - 200) + 200 = 1000 from by omega]
      exact List.take_append_drop 1000 text
  · intro i a b ha hb
    rw [chunkText_getElem] at ha hb
    have h1 : 800 * i < text.length := by
      by_contra hc
      rw [if_neg hc] at ha
      exact Option.noConfusion ha
    have h2 : 800 * (i + 1) < text.length := by
      by_contra hc
      rw [if_neg hc] at hb
      exact Option.noConfusion hb
    rw [if_pos h1] at ha
    rw [if_pos h2] at hb
    have hA : a = (text.drop (i * 800)).take 1000 := (Option.some.inj ha).symm
    have hB : b = (text.drop ((i + 1) * 800)).take 1000 := (Option.some.inj hb).symm
    have hALen : a.length = min 1000 (text.length - i * 800) := by
      rw [hA, List.length_take, List.length_drop]
    have hBLen : b.length = min 1000 (text.length - (i + 1) * 800) := by
      rw [hB, List.length_take, List.length_drop]
    constructor
    · have hm : a.length - min 200 b.length = 800 := by omega
      rw [hm, hA, hB, List.drop_take, List.drop_drop, List.take_take]
      simp only [List.length_take, List.length_drop]
      rcases le_or_lt (i * 800 + 1000) text.length with hc | hc
      · -- a is a full window of 1000 characters; the shared block is 200 long
        rw [show min (min 200 (min 1000 (text.length - (i + 1) * 800))) 1000 = 200
          from by omega]
        rw [show (i + 1) * 800 = i * 800 + 800 from by ring]
      · -- b is a short final chunk, entirely a suffix of a
        rw [show (i + 1) * 800 = i * 800 + 800 from by ring]
        rw [List.take_of_length_le (by rw [List.length_drop]; omega),
          List.take_of_length_le (by rw [List.length_drop]; omega)]
    · intro h3
      rw [chunkText_getElem] at h3
      have h4 : 800 * (i + 2) < text.length := by
        by_contra hc
        rw [if_neg hc] at h3
        exact h3 rfl
      omega

/-- Witness for chunk_overlap_reconstruction at a concrete 1001-character text. -/
theorem chunk_overlap_reconstruction_witness :
    1000 < (List.replicate 1001 'a').length ∧
    ((∃ rest, chunkText (List.replicate 1001 'a') =
        (List.replicate 1001 'a').take 1000 :: rest ∧
      (List.replicate 1001 'a').take 1000 ++
        (rest.map (fun c => c.drop 200)).flatten = List.replicate 1001 'a') ∧
    (∀ i a b, (chunkText (List.replicate 1001 'a'))[i]? = some a →
        (chunkText (List.replicate 1001 'a'))[i + 1]? = some b →
      (a.drop (a.length - min 200 b.length) = b.take (min 200 b.length) ∧
        ((chunkText (List.replicate 1001 'a'))[i + 2]? ≠ none → 200 ≤ b.length)))) :=
  ⟨by simp only [List.length_replicate]; omega,
    chunk_overlap_reconstruction (List.replicate 1001 'a')
      (by simp only [List.length_replicate]; omega)⟩

/-- Witness for chunk_termination_corrected at the source configuration
(1000, 200) and the degenerate configuration (1, 1). -/
theorem chunk_termination_corrected_witness :
    (200 < 1000 ∧ 1 ≤ 1 ∧ (['a'] : List Char) ≠ []) ∧
    ((chunkFrom 1000 200 ['a'] 0 (['a'] : List Char).length).isSome = true ∧
      chunkFrom 1 1 ['a'] 0 9 = none) :=
  ⟨⟨by decide, by decide, by decide⟩,
    chunk_termination_corrected 1000 200 1 1 ['a'] ['a'] 9
      (by decide) (by decide) (by decide)⟩

theorem cons_mul_range_succ (c att fuel : Nat) :
    c * att :: (List.range fuel).map (fun j => c * (att + 1 + j)) =
      (List.range (fuel + 1)).map (fun j => c * (att + j)) := by
  rw [List.range_succ_eq_map, List.map_cons, List.map_map]
  congr 1
  apply List.map_congr_left
  intro j _
  simp only [Function.comp_def]
  congr 1
  omega

theorem getEmbeddingFrom_allfail (imp : Nat → EmbedOutcome) :
    ∀ (fuel att : Nat), (∀ a, att ≤ a → a < att + fuel → isEmbedFail (imp a) = true) →
      getEmbeddingFrom imp att fuel =
        ⟨EmbedResult.thrown "Failed to embed after all retries.", fuel,
          (List.range fuel).map (fun j => 1000 * (att + j))⟩ := by
  intro fuel
  induction fuel with
  | zero => intro att _; rfl
  | succ fuel ih =>
    intro att h
    have hfail : isEmbedFail (imp att) = true := h att (by omega) (by omega)
    have hrec := ih (att + 1) (fun a h1 h2 => h a (by omega) (by omega))
    cases himp : imp att
    case ok v => rw [himp] at hfail; simp [isEmbedFail] at hfail
    all_goals
      simp only [getEmbeddingFrom, himp, hrec]
      rw [← cons_mul_range_succ 1000 att fuel]

theorem getEmbeddingFrom_ok_after (imp : Nat → EmbedOutcome) (v : List Int) :
    ∀ (k att fuel : Nat), (∀ a, att ≤ a → a < att + k → isEmbedFail (imp a) = true) →
      imp (att + k) = EmbedOutcome.ok v → k < fuel →
      getEmbeddingFrom imp att fuel =
        ⟨EmbedResult.ok v, k + 1, (List.range k).map (fun j => 1000 * (att + j))⟩ := by
  intro k
  induction k with
  | zero =>
    intro att fuel _ hok hlt
    cases fuel with
    | zero => omega
    | succ fuel =>
      simp only [getEmbeddingFrom, show imp att = EmbedOutcome.ok v from hok]
      rfl
  | succ k ih =>
    intro att fuel h hok hlt
    cases fuel with
    | zero => omega
    | succ fuel =>
      have hfail : isEmbedFail (imp att) = true := h att (by omega) (by omega)
      have hrec := ih (att + 1) fuel (fun a h1 h2 => h a (by omega) (by omega))
        (by rw [show att + 1 + k = att + (k + 1) from by omega]; exact hok) (by omega)
      cases himp : imp att
      case ok w => rw [himp] at hfail; simp [isEmbedFail] at hfail
      all_goals
        simp only [getEmbeddingFrom, himp, hrec]
        rw [← cons_mul_range_succ 1000 att k]

theorem safeUpsertFrom_allthrow (imp : Nat → UpsertOutcome) :
    ∀ (fuel att : Nat), (∀ a, att ≤ a → a < att + fuel → isThrown (imp a) = true) →
      safeUpsertFrom imp att fuel =
        ⟨UpsertResult.thrown "Failed to upsert after multiple retries.", fuel,
          (List.range fuel).map (fun j => 2000 * (att + j)), 0⟩ := by
  intro fuel
  induction fuel with
  | zero => intro att _; rfl
  | succ fuel ih =>
    intro att h
    have hfail : isThrown (imp att) = true := h att (by omega) (by omega)
    have hrec := ih (att + 1) (fun a h1 h2 => h a (by omega) (by omega))
    cases himp : imp att
    case returns e => rw [himp] at hfail; simp [isThrown] at hfail
    all_goals
      simp only [safeUpsertFrom, himp, hrec]
      rw [← cons_mul_range_succ 2000 att fuel]

theorem safeUpsertFrom_return_after (imp : Nat → UpsertOutcome) (e : Bool) :
    ∀ (k att fuel : Nat), (∀ a, att ≤ a → a < att + k → isThrown (imp a) = true) →
      imp (att + k) = UpsertOutcome.returns e → k < fuel →
      safeUpsertFrom imp att fuel =
        ⟨UpsertResult.ok, k + 1, (List.range k).map (fun j => 2000 * (att + j)),
          if e then 1 else 0⟩ := by
  intro k
  induction k with
  | zero =>
    intro att fuel _ hok hlt
    cases fuel with
    | zero => omega
    | succ fuel =>
      simp only [safeUpsertFrom, show imp att = UpsertOutcome.returns e from hok]
      rfl
  | succ k ih =>
    intro att fuel h hok hlt
    cases fuel with
    | zero => omega
    | succ fuel =>
      have hfail : isThrown (imp att) = true := h att (by omega) (by omega)
      have hrec := ih (att + 1) fuel (fun a h1 h2 => h a (by omega) (by omega))
        (by rw [show att + 1 + k = att + (k + 1) from by omega]; exact hok) (by omega)
      cases himp : imp att
      case returns w => rw [himp] at hfail; simp [isThrown] at hfail
      all_goals
        simp only [safeUpsertFrom, himp, hrec]
        rw [← cons_mul_range_succ 2000 att k]

/-- Claim C5 (confirmed): safeUpsert retries only on thrown errors, makes up
to 5 attempts with linear backoff of attempt * 2000 ms, fails permanently
with the upsert-failure error after exhausting all 5 attempts, treats an
empty/falsy resolved response as success with a single logged warning and
no retry, and an endpoint that throws on the first 2 attempts and then
succeeds makes safeUpsert return successfully on the 3rd attempt. -/
theorem safeUpsert_retry_spec (f g h : Nat → UpsertOutcome)
    (hf : ∀ a, a < 6 → isThrown (f a) = true)
    (hg : g 1 = UpsertOutcome.returns true)
    (hh1 : isThrown (h 1) = true) (hh2 : isThrown (h 2) = true)
    (hh3 : h 3 = UpsertOutcome.returns false) :
    safeUpsert f 5 =
      ⟨UpsertResult.thrown "Failed to upsert after multiple retries.", 5,
        [2000, 4000, 6000, 8000, 10000], 0⟩ ∧
    safeUpsert g 5 = ⟨UpsertResult.ok, 1, [], 1⟩ ∧
    safeUpsert h 5 = ⟨UpsertResult.ok, 3, [2000, 4000], 0⟩ := by
  refine ⟨?_, ?_, ?_⟩
  · unfold safeUpsert
    rw [safeUpsertFrom_allthrow f 5 1 (fun a h1 h2 => hf a (by omega))]
    decide
  · unfold safeUpsert
    rw [safeUpsertFrom_return_after g true 0 1 5
      (fun a h1 h2 => False.elim (by omega)) (by exact hg) (by omega)]
    rfl
  · unfold safeUpsert
    rw [safeUpsertFrom_return_after h false 2 1 5
      (fun a h1 h2 => by
        rcases (show a = 1 ∨ a = 2 from by omega) with rfl | rfl
        · exact hh1
        · exact hh2)
      (by exact hh3) (by omega)]
    decide

/-- Witness for safeUpsert_retry_spec at three concrete endpoints. -/
theorem safeUpsert_retry_spec_witness :
    ((∀ a, a < 6 → isThrown (alwaysThrowUpsert a) = true) ∧
      emptyOkUpsert 1 = UpsertOutcome.returns true ∧
      isThrown (throwTwiceUpsert 1) = true ∧
      isThrown (throwTwiceUpsert 2) = true ∧
      throwTwiceUpsert 3 = UpsertOutcome.returns false) ∧
    (safeUpsert alwaysThrowUpsert 5 =
      ⟨UpsertResult.thrown "Failed to upsert after multiple retries.", 5,
        [2000, 4000, 6000, 8000, 10000], 0⟩ ∧
    safeUpsert emptyOkUpsert 5 = ⟨UpsertResult.ok, 1, [], 1⟩ ∧
    safeUpsert throwTwiceUpsert 5 = ⟨UpsertResult.ok, 3, [2000, 4000], 0⟩) :=
  ⟨⟨by decide, by decide, by decide, by decide, by decide⟩,
    safeUpsert_retry_spec alwaysThrowUpsert emptyOkUpsert throwTwiceUpsert
      (by decide) (by decide) (by decide) (by decide) (by decide)⟩

/-- Claim C6, counterexample: two endpoints that always fail with different
causes (HTTP 500 versus a network error) produce bitwise identical
getEmbedding outcomes; the final error is the fixed generic message
"Failed to embed after all retries." and does not carry the last observed
cause. -/
theorem embedding_failure_no_cause_cex :
    getEmbedding (fun _ => EmbedOutcome.httpError 500) 5 =
      getEmbedding (fun _ => EmbedOutcome.netError "socket hang up") 5 ∧
    (EmbedOutcome.httpError 500 ≠ EmbedOutcome.netError "socket hang up") ∧
    (getEmbedding (fun _ => EmbedOutcome.httpError 500) 5).result =
      EmbedResult.thrown "Failed to embed after all retries." := by
  decide

/-- Claim C6, amended: getEmbedding makes at most 5 attempts, retrying on any
failure with linear backoff of attempt * 1000 ms; an endpoint that fails 4
times then succeeds yields the successful result after exactly 5 calls; an
endpoint that always fails makes getEmbedding fail after exactly 5
attempts — but with a fixed generic failure message that does not carry
the last observed cause. -/
theorem getEmbedding_retry_corrected (f g : Nat → EmbedOutcome) (v : List Int)
    (hf : ∀ a, a < 6 → isEmbedFail (f a) = true)
    (hg : ∀ a, a < 5 → isEmbedFail (g a) = true)
    (hg5 : g 5 = EmbedOutcome.ok v) :
    getEmbedding f 5 =
      ⟨EmbedResult.thrown "Failed to embed after all retries.", 5,
        [1000, 2000, 3000, 4000, 5000]⟩ ∧
    getEmbedding g 5 = ⟨EmbedResult.ok v, 5, [1000, 2000, 3000, 4000]⟩ := by
  constructor
  · unfold getEmbedding
    rw [getEmbeddingFrom_allfail f 5 1 (fun a h1 h2 => hf a (by omega))]
    decide
  · unfold getEmbedding
    rw [getEmbeddingFrom_ok_after g v 4 1 5 (fun a h1 h2 => hg a (by omega))
      (by exact hg5) (by omega)]
    congr 1

/-- Witness for getEmbedding_retry_corrected at two concrete endpoints. -/
theorem getEmbedding_retry_corrected_witness :
    ((∀ a, a < 6 → isEmbedFail (alwaysFailEmbed a) = true) ∧
      (∀ a, a < 5 → isEmbedFail (failThenOkEmbed a) = true) ∧
      failThenOkEmbed 5 = EmbedOutcome.ok [7]) ∧
    (getEmbedding alwaysFailEmbed 5 =
      ⟨EmbedResult.thrown "Failed to embed after all retries.", 5,
        [1000, 2000, 3000, 4000, 5000]⟩ ∧
    getEmbedding failThenOkEmbed 5 = ⟨EmbedResult.ok [7], 5, [1000, 2000, 3000, 4000]⟩) :=
  ⟨⟨by decide, by decide, by decide⟩,
    getEmbedding_retry_corrected alwaysFailEmbed failThenOkEmbed [7]
      (by decide) (by decide) (by decide)⟩

/-- Claim C3, counterexample: a run over six records that all lack a
transcript visits rows 1 to 5 — so the record at row 5, the 5th record of
the run and a row index divisible by 5, finishes (it is skipped) — yet no
checkpoint write of 5 and no progress log ever happen; the only write is
the final one with 6. -/
theorem periodic_checkpoint_skip_cex :
    run none (List.replicate 6 ⟨"x", ""⟩) =
      [Ev.visit 1, Ev.visit 2, Ev.visit 3, Ev.visit 4, Ev.visit 5,
        Ev.saveProgress 6] ∧
    Ev.saveProgress 5 ∉ run none (List.replicate 6 ⟨"x", ""⟩) ∧
    (∀ n, Ev.progressLog 5 n ∉ run none (List.replicate 6 ⟨"x", ""⟩)) := by
  refine ⟨by decide, by decide, ?_⟩
  intro n
  have hrun : run none (List.replicate 6 (⟨"x", ""⟩ : Record)) =
      [Ev.visit 1, Ev.visit 2, Ev.visit 3, Ev.visit 4, Ev.visit 5,
        Ev.saveProgress 6] := by decide
  rw [hrun]
  intro hmem
  simp only [List.mem_cons, List.not_mem_nil, or_false] at hmem
  rcases hmem with h | h | h | h | h | h <;> exact Ev.noConfusion h

/-- Claim C3, amended: only a processed record (non-empty transcript) whose
absolute row index is divisible by 5 triggers the periodic checkpoint
persist (writing that row index) and the progress log; a record skipped
for a missing/empty transcript emits no event at all beyond its visit, in
particular no periodic checkpoint write, even when it is a 5th record. -/
theorem periodic_checkpoint_corrected (r1 r2 : Record) (row1 row2 vc1 vc2 : Nat)
    (h1 : r1.transcript = "") (h2 : r2.transcript ≠ "") (h5 : row2 % 5 = 0) :
    processRecord r1 row1 vc1 = ([], vc1) ∧
    Ev.saveProgress row2 ∈ (processRecord r2 row2 vc2).1 ∧
    Ev.progressLog row2 (vc2 + (chunkText r2.transcript.data).length) ∈
      (processRecord r2 row2 vc2).1 := by
  refine ⟨by simp [processRecord, h1], ?_, ?_⟩ <;>
    simp [processRecord, h2, h5]

/-- Witness for periodic_checkpoint_corrected: a skipped record at row 10 and
a processed record at row 5. -/
theorem periodic_checkpoint_corrected_witness :
    ((⟨"x", ""⟩ : Record).transcript = "" ∧
      (⟨"y", "t"⟩ : Record).transcript ≠ "" ∧ 5 % 5 = 0) ∧
    (processRecord ⟨"x", ""⟩ 10 3 = ([], 3) ∧
      Ev.saveProgress 5 ∈ (processRecord ⟨"y", "t"⟩ 5 0).1 ∧
      Ev.progressLog 5 (0 + (chunkText (String.data "t")).length) ∈
        (processRecord ⟨"y", "t"⟩ 5 0).1) :=
  ⟨⟨by decide, by decide, by decide⟩,
    periodic_checkpoint_corrected ⟨"x", ""⟩ ⟨"y", "t"⟩ 10 5 3 0
      (by decide) (by decide) (by decide)⟩

theorem processRecord_no_visit (r : Record) (row vc : Nat) :
    (processRecord r row vc).1.filterMap visitEv = [] := by
  rw [List.filterMap_eq_nil_iff]
  intro e he
  by_cases ht : r.transcript = ""
  · simp [processRecord, ht] at he
  · simp only [processRecord, ht, if_false, if_neg, List.mem_append] at he
    rcases he with he | he
    · rw [List.mem_flatMap] at he
      obtain ⟨p, _, hp⟩ := he
      simp only [List.mem_cons, List.mem_singleton, List.not_mem_nil, or_false] at hp
      rcases hp with rfl | rfl <;> rfl
    · by_cases h5 : row % 5 = 0
      · rw [if_pos h5] at he
        simp only [List.mem_cons, List.mem_singleton, List.not_mem_nil, or_false] at he
        rcases he with rfl | rfl <;> rfl
      · rw [if_neg h5] at he
        exact absurd he (List.not_mem_nil e)

theorem runLoop_visits :
    ∀ (rs : List Record) (row vc : Nat),
      visitedRows (runLoop rs row vc) = List.range' row rs.length := by
  intro rs
  induction rs with
  | nil =>
    intro row vc
    rfl
  | cons r rs ih =>
    intro row vc
    simp only [runLoop, visitedRows, List.filterMap_cons, List.filterMap_append]
    rw [show visitEv (Ev.visit row) = some row from rfl]
    rw [processRecord_no_visit]
    have := ih (row + 1) (processRecord r row vc).2
    simp only [visitedRows] at this
    rw [this]
    simp only [List.length_cons, List.nil_append]
    rw [List.range'_succ]

/-- Claim C7 (confirmed): with a persisted checkpoint c, a run iterates
exactly over the rows c + 1, c + 2, ..., up to the last row of the
dataset — every record with row index at most c is skipped; with no
checkpoint it starts at row index 1, skipping index 0. -/
theorem checkpoint_resumption (talks : List Record) (c : Nat) :
    visitedRows (run (some c) talks) = List.range' (c + 1) (talks.length - (c + 1)) ∧
    visitedRows (run none talks) = List.range' 1 (talks.length - 1) := by
  constructor
  · show visitedRows (runLoop (talks.drop (c + 1)) (c + 1) 0) = _
    rw [runLoop_visits, List.length_drop]
  · show visitedRows (runLoop (talks.drop 1) 1 0) = _
    rw [runLoop_visits, List.length_drop]

end IndexTed

namespace PromptRoute

/-- Claim C9 (confirmed): a request whose question field is missing, not a
string, or empty/whitespace-only after trimming gets a 400 response and
the handler makes no remote call at all. -/
theorem invalid_question_400 (env : PromptEnv) (q : Option QVal)
    (hq : q = none ∨ (∃ b, q = some (QVal.nonString b)) ∨
      (∃ s, q = some (QVal.str s) ∧ jsTrim s = "")) :
    statusOf (POST env q).1 = 400 ∧ (POST env q).2 = [] := by
  rcases hq with rfl | ⟨b, rfl⟩ | ⟨s, rfl, hs⟩
  · exact ⟨rfl, rfl⟩
  · exact ⟨rfl, rfl⟩
  · by_cases h0 : s = ""
    · subst h0
      exact ⟨rfl, rfl⟩
    · constructor <;> simp [POST, statusOf, h0, hs]

/-- Witness for invalid_question_400 at a missing question field. -/
theorem invalid_question_400_witness :
    ((none : Option QVal) = none ∨
      (∃ b, (none : Option QVal) = some (QVal.nonString b)) ∨
      (∃ s, (none : Option QVal) = some (QVal.str s) ∧ jsTrim s = "")) ∧
    (statusOf (POST dummyEnv none).1 = 400 ∧ (POST dummyEnv none).2 = []) :=
  ⟨Or.inl rfl, invalid_question_400 dummyEnv none (Or.inl rfl)⟩

set_option maxRecDepth 8192 in
/-- Claim C1, counterexample: with a valid question, a successful embedding,
a Pinecone query returning zero matches and a chat model answering, the
handler does call the chat-completion API (chat is in its trace) and
returns the model's answer, not the fixed fallback "I don't know based on
the provided data". -/
theorem zero_matches_calls_chat_cex :
    RCall.chat ∈ (POST envZero (some (QVal.str "What is love?"))).2 ∧
    (POST envZero (some (QVal.str "What is love?"))).1 ≠
      PromptOut.success "I don't know based on the provided data" []
        (buildUserPrompt (jsTrim "What is love?") []) := by
  decide

/-- Claim C1, amended: when the vector-store query returns zero matches the
pipeline does not short-circuit: it still calls the chat-completion API
(after the embedding and query calls), with the empty context, and returns
the model's answer together with the empty context array. -/
theorem zero_matches_still_calls_chat (env : PromptEnv) (s ans : String)
    (v : List Int) (hs : jsTrim s ≠ "") (he : env.embedRaw = FetchResult.ok v)
    (hv : v.length = 1536) (hq : env.queryResp = FetchResult.ok (some []))
    (hc : env.chatResp = FetchResult.ok ans) :
    POST env (some (QVal.str s)) =
      (PromptOut.success ans [] (buildUserPrompt (jsTrim s) []),
        [RCall.embed, RCall.query, RCall.chat]) := by
  have h0 : s ≠ "" := by
    intro h
    apply hs
    rw [h]
    rfl
  simp [POST, h0, hs, he, hv, hq, hc]

/-- Witness for zero_matches_still_calls_chat at a concrete environment. -/
theorem zero_matches_still_calls_chat_witness :
    (jsTrim "hi" ≠ "" ∧
      envZero.embedRaw = FetchResult.ok (List.replicate 1536 0) ∧
      (List.replicate 1536 (0 : Int)).length = 1536 ∧
      envZero.queryResp = FetchResult.ok (some []) ∧
      envZero.chatResp = FetchResult.ok "Some model answer.") ∧
    POST envZero (some (QVal.str "hi")) =
      (PromptOut.success "Some model answer." []
        (buildUserPrompt (jsTrim "hi") []),
        [RCall.embed, RCall.query, RCall.chat]) :=
  ⟨⟨by decide, rfl, by rw [List.length_replicate], rfl, rfl⟩,
    zero_matches_still_calls_chat envZero "hi" "Some model answer."
      (List.replicate 1536 0) (by decide) rfl (by rw [List.length_replicate]) rfl rfl⟩

end PromptRoute

namespace StatsRoute

/-- Claim C10 (confirmed): GET /api/stats is a constant function returning
chunk_size 1024, overlap ratio 0.2 (the rational 1/5) and top_k 15 for
every call, and the advertised chunk_size 1024 differs from the window
size 1000 the ingestion chunker actually uses. -/
theorem stats_constant :
    (∀ u : Unit, GET u = ⟨1024, 1/5, 15⟩) ∧
    (GET ()).chunk_size ≠ IndexTed.CHUNK_SIZE :=
  ⟨fun _ => rfl, by decide⟩

end StatsRoute

end TedRag
